import Mathlib

/-!
Verification development for the i18n translation resolution and caching
engine (`i18n.go`).

The engine holds an ordered list of storage backends and an in-memory cache
store.  At construction it loads every backend into the cache (lowest
priority first), lookups walk a locale fallback chain, misses synthesize a
placeholder record that is persisted through the backend chain, and writes
and deletes mirror between backends and the cache.

The embedding below is a direct functional translation of the Go source:
mutation of the `I18n` struct and of the cache store becomes explicit state
passing, the pluggable cache store (`cache.CacheStoreInterface`) becomes a
record of operations over an abstract state type `σ`, and the default
in-memory store (`memory.New()`, a Go map from string keys to serialized
records) becomes an association list with overwrite-on-set semantics.
Backends are external collaborators reached through the `Backend` interface
declared in the source; their concrete implementations live outside the
translated file, so they are modelled from the spec as a record of a current
record list, an accept/reject policy, and call logs recording the
invocations the engine makes on them.  The external formatter `cldr.Parse`
is modelled as a function parameter of the engine.
-/

namespace QorI18n

/-- `var Default = "en-US"` : the process-wide default locale. -/
def Default : String := "en-US"

/-- The serialized form of a record held by the cache store: the JSON
serialization keeps `Key`, `Locale` and `Value`; the `Backend` field is
tagged `json:"-"` and is not stored. -/
structure StoredTranslation where
  Key : String
  Locale : String
  Value : String
deriving DecidableEq

/-- `Translation` : Key, Locale, Value and the owning backend (modelled as
an index into the engine's backend list, `none` for Go's `nil`). -/
structure Translation where
  Key : String
  Locale : String
  Value : String
  Backend : Option Nat
deriving DecidableEq

/-- Serialization used by the cache store: drops the `Backend` field. -/
def toStored (t : Translation) : StoredTranslation :=
  ⟨t.Key, t.Locale, t.Value⟩

/-- Modelled from the spec: a storage backend is an external collaborator
(the `Backend` interface of the source has its implementations outside the
translated file).  It carries its current record list (what
`LoadTranslations` reports), an accept policy for saves, an error policy
for deletes, and logs of the save/delete invocations the engine issued. -/
structure BackendModel where
  translations : List Translation
  acceptSave : Translation → Bool
  acceptDelete : Translation → Bool
  saveLog : List Translation := []
  deleteLog : List Translation := []

/-- Remove every record with the given (Locale, Key) pair from a list. -/
def removeTranslation (loc key : String) : List Translation → List Translation
  | [] => []
  | r :: ts =>
    if r.Locale = loc ∧ r.Key = key then removeTranslation loc key ts
    else r :: removeTranslation loc key ts

/-- Modelled from the spec: a backend's `SaveTranslation` persists one
record as an idempotent upsert keyed by (Locale, Key) and returns success
or failure according to its accept policy; the invocation is logged either
way. -/
def backendSave (b : BackendModel) (t : Translation) : BackendModel × Bool :=
  if b.acceptSave t then
    ({ b with translations := t :: removeTranslation t.Locale t.Key b.translations,
              saveLog := b.saveLog ++ [t] }, true)
  else
    ({ b with saveLog := b.saveLog ++ [t] }, false)

/-- Modelled from the spec: a backend's `DeleteTranslation` is a
best-effort delete of the (Locale, Key) record; it may report an error
(`acceptDelete` false), which the engine ignores. -/
def backendDelete (b : BackendModel) (t : Translation) : BackendModel × Bool :=
  ({ b with translations := removeTranslation t.Locale t.Key b.translations,
            deleteLog := b.deleteLog ++ [t] }, b.acceptDelete t)

/-- `cache.CacheStoreInterface` : the pluggable cache store, as a record of
operations over an abstract store state `σ`.  `set` and `delete` return the
new state together with a success flag (`true` models a nil error);
`unmarshal` returns the deserialized record, `none` modelling both
not-found and unmarshal errors (the engine treats every non-nil error the
same way). -/
structure CacheStore (σ : Type) where
  set : σ → String → StoredTranslation → σ × Bool
  unmarshal : σ → String → Option StoredTranslation
  delete : σ → String → σ × Bool

/-- The state of the default in-memory cache store: an association list
from composite cache keys to serialized records, with at most one visible
entry per key (Go map semantics). -/
abbrev Mem := List (String × StoredTranslation)

/-- Go map lookup on the in-memory store. -/
def memLookup (m : Mem) (k : String) : Option StoredTranslation :=
  match m with
  | [] => none
  | (k', v) :: m => if k' = k then some v else memLookup m k

/-- Remove every entry for a key (Go map delete). -/
def memErase (m : Mem) (k : String) : Mem :=
  match m with
  | [] => []
  | (k', v) :: m => if k' = k then memErase m k else (k', v) :: memErase m k

/-- Go map insert: overwrites any prior entry for the key. -/
def memSet (m : Mem) (k : String) (v : StoredTranslation) : Mem :=
  (k, v) :: memErase m k

/-- `memory.New()` : the default in-memory cache store.  Its set and delete
operations never fail. -/
def memStore : CacheStore Mem where
  set := fun m k v => (memSet m k v, true)
  unmarshal := fun m k => memLookup m k
  delete := fun m k => (memErase m k, true)

/-- The `I18n` struct.  `store` and `cacheStore` together model the Go
field `cacheStore cache.CacheStoreInterface` (operations plus current
state); `parse` models the external `cldr.Parse` formatter the source calls
at the end of `T`. -/
structure I18n (σ : Type) where
  scope : String
  value : String
  Backends : List BackendModel
  FallbackLocales : List (String × List String)
  fallbackLocales : List String
  store : CacheStore σ
  cacheStore : σ
  parse : String → String → List String → Option String

variable {σ : Type}

/-- `cacheKey` : `strings.Join(strs, "/")` applied to locale and key. -/
def cacheKey (locale key : String) : String :=
  String.intercalate "/" [locale, key]

/-- `AddTranslation` : store the record in the cache under
`cacheKey(Locale, Key)`; the flag is the `Set` error (true = nil). -/
def AddTranslation (e : I18n σ) (t : Translation) : I18n σ × Bool :=
  let r := e.store.set e.cacheStore (cacheKey t.Locale t.Key) (toStored t)
  ({ e with cacheStore := r.1 }, r.2)

/-- Add every record of a backend's `LoadTranslations()` result to the
cache, in list order (the inner loop of `loadToCacheStore`). -/
def addAll (e : I18n σ) (ts : List Translation) : I18n σ :=
  ts.foldl (fun acc t => (AddTranslation acc t).1) e

/-- `loadToCacheStore` : iterate backends from the last declared (lowest
priority) to the first, adding every reported record to the cache. -/
def loadToCacheStore (e : I18n σ) : I18n σ :=
  e.Backends.reverse.foldl (fun acc b => addAll acc b.translations) e

/-- `New` : build an engine over the given backends with a fresh in-memory
cache store and perform the full load.  The external `cldr.Parse`
formatter is supplied as the model parameter `parse`. -/
def New (parse : String → String → List String → Option String)
    (backends : List BackendModel) : I18n Mem :=
  loadToCacheStore
    { scope := "", value := "", Backends := backends, FallbackLocales := [],
      fallbackLocales := [], store := memStore, cacheStore := [], parse := parse }

/-- `SetCacheStore` : swap the cache store and re-run the full load. -/
def SetCacheStore {σ' : Type} (e : I18n σ) (store : CacheStore σ') (s : σ') : I18n σ' :=
  loadToCacheStore
    { scope := e.scope, value := e.value, Backends := e.Backends,
      FallbackLocales := e.FallbackLocales, fallbackLocales := e.fallbackLocales,
      store := store, cacheStore := s, parse := e.parse }

/-- The walk of `SaveTranslation`: try each backend in order, stop at the
first success; failed backends have still been invoked.  Returns the
updated backend list and whether some backend accepted. -/
def saveTranslationAux (t : Translation) : List BackendModel → List BackendModel × Bool
  | [] => ([], false)
  | b :: bs =>
    let r := backendSave b t
    if r.2 then (r.1 :: bs, true)
    else
      let rest := saveTranslationAux t bs
      (r.1 :: rest.1, rest.2)

/-- `SaveTranslation` : try backends in priority order; on the first
success mirror the record into the cache (ignoring the cache `Set` error)
and return success; if every backend rejects, return an error without
touching the cache. -/
def SaveTranslation (e : I18n σ) (t : Translation) : I18n σ × Bool :=
  let r := saveTranslationAux t e.Backends
  if r.2 then
    ((AddTranslation { e with Backends := r.1 } t).1, true)
  else
    ({ e with Backends := r.1 }, false)

/-- `DeleteTranslation` : invoke delete on every backend (ignoring their
errors), then delete the cache entry and return the cache outcome. -/
def DeleteTranslation (e : I18n σ) (t : Translation) : I18n σ × Bool :=
  let bs := e.Backends.map (fun b => (backendDelete b t).1)
  let r := e.store.delete e.cacheStore (cacheKey t.Locale t.Key)
  ({ e with Backends := bs, cacheStore := r.1 }, r.2)

/-- Go map lookup in the `FallbackLocales` field. -/
def flLookup (m : List (String × List String)) (k : String) : Option (List String) :=
  match m with
  | [] => none
  | (k', v) :: m => if k' = k then some v else flLookup m k

/-- The fallback locale sequence built at the top of `T`: the private
`fallbackLocales` field, then the locales configured for the requested
locale (if any), then the default locale. -/
def probeLocales (e : I18n σ) (locale : String) : List String :=
  e.fallbackLocales ++ (flLookup e.FallbackLocales locale).getD [] ++ [Default]

/-- The scoped persistence key: `strings.Join([scope, key], ".")` when the
engine has a non-empty scope, the raw key otherwise. -/
def scopedKey (e : I18n σ) (key : String) : String :=
  if e.scope ≠ "" then e.scope ++ "." ++ key else key

/-- One `cacheStore.Unmarshal(k, &translation)` call: on a hit the stored
fields overwrite `Key`, `Locale` and `Value` of the in-progress record
(`Backend` is tagged `json:"-"` and is preserved); on a miss the record is
left unchanged.  The flag is true when the call returned a nil error. -/
def unmarshalInto (e : I18n σ) (t : Translation) (k : String) : Translation × Bool :=
  match e.store.unmarshal e.cacheStore k with
  | some s => (⟨s.Key, s.Locale, s.Value, t.Backend⟩, true)
  | none => (t, false)

/-- The fallback probe loop of `T`: probe each locale in turn, breaking at
the first hit with a non-empty value. -/
def probeLoop (e : I18n σ) (key : String) : Translation → List String → Translation
  | t, [] => t
  | t, l :: ls =>
    let p := unmarshalInto e t (cacheKey l key)
    if p.2 = true ∧ p.1.Value ≠ "" then p.1 else probeLoop e key p.1 ls

/-- The miss path of `T` (the body of the outer `if` on lines 139-160 of
the source, entered when the first probe missed or held an empty value,
with `t` the in-progress record at that point): run the fallback probe
loop; if it found nothing non-empty, probe the default locale once more,
and on a final miss synthesize a placeholder record owned by the first
backend and persist it via `SaveTranslation`. -/
def resolveMiss (e : I18n σ) (locale key translationKey : String) (t : Translation) :
    Translation × I18n σ :=
  let tL := probeLoop e key t (probeLocales e locale)
  if tL.Value ≠ "" then (tL, e)
  else
    let p2 := unmarshalInto e tL (cacheKey Default key)
    if p2.2 = true ∧ p2.1.Value ≠ "" then (p2.1, e)
    else
      let t3 : Translation :=
        ⟨translationKey, locale, e.value, if e.Backends.length > 0 then some 0 else none⟩
      (t3, (SaveTranslation e t3).1)

/-- The resolution core of `T` (lines 138-160 of the source): probe the
requested locale; unless that probe hit with a non-empty value, take the
miss path (fallback loop, default probe, synthesis).  Returns the resolved
record and the possibly-updated engine. -/
def resolveTranslation (e : I18n σ) (locale key translationKey : String) :
    Translation × I18n σ :=
  let p1 := unmarshalInto e ⟨"", "", "", none⟩ (cacheKey locale key)
  if p1.2 = true ∧ p1.1.Value ≠ "" then (p1.1, e)
  else resolveMiss e locale key translationKey p1.1

/-- The final formatting step of `T`: `cldr.Parse`; on failure the
pre-formatting value is returned unchanged. -/
def parseApply (e : I18n σ) (locale value : String) (args : List String) : String :=
  match e.parse locale value args with
  | some s => s
  | none => value

/-- `T` : translate with locale, key and arguments.  Empty locale means the
default locale; the resolved record's value is used when non-empty and the
raw key otherwise; the result is passed through the formatter.  Returns the
display string and the possibly-updated engine. -/
def T (e : I18n σ) (locale key : String) (args : List String) : String × I18n σ :=
  let loc := if locale = "" then Default else locale
  let translationKey := scopedKey e key
  let r := resolveTranslation e loc key translationKey
  let value := if r.1.Value ≠ "" then r.1.Value else key
  (parseApply e loc value args, r.2)

/-- A formatter that always fails, so that `T` returns the pre-formatting
resolved value unchanged. -/
def nullFormatter : String → String → List String → Option String :=
  fun _ _ _ => none

/-- The usable value of a cache probe result: the stored value when the
probe hit with a non-empty value, `none` otherwise. -/
def usableVal : Option StoredTranslation → Option String
  | some s => if s.Value ≠ "" then some s.Value else none
  | none => none

/-- One cache probe of `T`: look up `cacheKey(locale, key)` in the current
cache store. -/
def probeVal (e : I18n σ) (locale key : String) : Option StoredTranslation :=
  e.store.unmarshal e.cacheStore (cacheKey locale key)

/-- The first usable probe value along a list of locales. -/
def firstUsable (e : I18n σ) (key : String) : List String → Option String
  | [] => none
  | l :: ls =>
    match usableVal (probeVal e l key) with
    | some v => some v
    | none => firstUsable e key ls

/-- The record a single backend's load contributes to a given cache key
after the inner loop of `loadToCacheStore`: its last record mapping to that
cache key, if any (later writes overwrite earlier ones). -/
def lastWrite (k : String) : List Translation → Option StoredTranslation
  | [] => none
  | t :: ts =>
    match lastWrite k ts with
    | some s => some s
    | none => if cacheKey t.Locale t.Key = k then some (toStored t) else none

/-- The record the full load leaves in the cache for a given cache key: the
contribution of the first declared backend that has one. -/
def firstHit (k : String) : List BackendModel → Option StoredTranslation
  | [] => none
  | b :: bs =>
    match lastWrite k b.translations with
    | some s => some s
    | none => firstHit k bs

/-- Number of visible cache entries for a key. -/
def memCount (m : Mem) (k : String) : Nat :=
  match m with
  | [] => 0
  | (k', _) :: m => (if k' = k then 1 else 0) + memCount m k

/-- Number of records with a given (Locale, Key) pair in a backend's
record list. -/
def transCount (loc key : String) : List Translation → Nat
  | [] => 0
  | r :: ts => (if r.Locale = loc ∧ r.Key = key then 1 else 0) + transCount loc key ts

/-- The cache-level image of `addAll`: set every record of a load result in
order. -/
def memAddAll (m : Mem) (ts : List Translation) : Mem :=
  ts.foldl (fun m t => memSet m (cacheKey t.Locale t.Key) (toStored t)) m

/-- The cache-level image of `loadToCacheStore` on the in-memory store. -/
def loadMem (m : Mem) (bs : List BackendModel) : Mem :=
  bs.reverse.foldl (fun m b => memAddAll m b.translations) m

/-- A backend that accepts every save and delete; used to instantiate the
theorems on concrete inputs. -/
def okBackend (ts : List Translation) : BackendModel :=
  { translations := ts, acceptSave := fun _ => true, acceptDelete := fun _ => true }

/-- A backend that rejects every save; used to instantiate the theorems on
concrete inputs. -/
def noBackend (ts : List Translation) : BackendModel :=
  { translations := ts, acceptSave := fun _ => false, acceptDelete := fun _ => false }

/-- A backend holding one record for locale "L" and key "K" with value
"v1". -/
def wBackendV1 : BackendModel := okBackend [⟨"K", "L", "v1", none⟩]

/-- A backend holding one record for locale "L" and key "K" with value
"v2". -/
def wBackendV2 : BackendModel := okBackend [⟨"K", "L", "v2", none⟩]

/-- A concrete engine whose cache holds values for a fallback locale "L3"
and for the default locale, with "L2" and "L3" configured as the fallback
chain of "L". -/
def wFallbackEngine : I18n Mem :=
  { scope := "", value := "", Backends := [],
    FallbackLocales := [("L", ["L2", "L3"])], fallbackLocales := [],
    store := memStore,
    cacheStore := [(cacheKey "L3" "K", ⟨"K", "L3", "bonjour"⟩),
                   (cacheKey Default "K", ⟨"K", Default, "dflt"⟩)],
    parse := nullFormatter }

/-- A freshly constructed engine with no backends. -/
def wEmptyEngine : I18n Mem := New nullFormatter []

/-- A freshly constructed engine with one accepting, initially empty
backend. -/
def wOneBackendEngine : I18n Mem := New nullFormatter [okBackend []]

/-- A freshly constructed engine with one rejecting backend. -/
def wRejectEngine : I18n Mem := New nullFormatter [noBackend []]

/-- A freshly constructed engine whose first backend rejects saves and
whose second and third accept them. -/
def wMixedEngine : I18n Mem :=
  New nullFormatter [noBackend [], okBackend [], okBackend []]

/-! ### Laws of the in-memory cache store -/

theorem memLookup_memErase (m : Mem) (k k' : String) (h : k' ≠ k) :
    memLookup (memErase m k') k = memLookup m k := by
  induction m with
  | nil => rfl
  | cons p m ih =>
    obtain ⟨a, v⟩ := p
    by_cases ha : a = k'
    · subst ha
      simp only [memErase, if_pos rfl, memLookup, if_neg h]
      exact ih
    · simp only [memErase, if_neg ha, memLookup]
      by_cases hak : a = k
      · simp [hak]
      · simp only [if_neg hak]
        exact ih

theorem memLookup_memSet (m : Mem) (k k' : String) (v : StoredTranslation) :
    memLookup (memSet m k' v) k = if k' = k then some v else memLookup m k := by
  by_cases h : k' = k
  · simp [memSet, memLookup, h]
  · simp only [memSet, memLookup, if_neg h]
    exact memLookup_memErase m k k' h

theorem memCount_memErase_self (m : Mem) (k : String) :
    memCount (memErase m k) k = 0 := by
  induction m with
  | nil => rfl
  | cons p m ih =>
    obtain ⟨a, v⟩ := p
    by_cases ha : a = k
    · simpa [memErase, ha] using ih
    · simpa [memErase, memCount, ha] using ih

theorem memCount_memSet_self (m : Mem) (k : String) (v : StoredTranslation) :
    memCount (memSet m k v) k = 1 := by
  simp [memSet, memCount, memCount_memErase_self]

/-! ### The full load leaves the first-declared backend's record in the
cache -/

theorem memLookup_memAddAll (ts : List Translation) (m : Mem) (k : String) :
    memLookup (memAddAll m ts) k =
      match lastWrite k ts with
      | some s => some s
      | none => memLookup m k := by
  induction ts generalizing m with
  | nil => rfl
  | cons t ts ih =>
    simp only [memAddAll, List.foldl_cons, lastWrite]
    rw [show (List.foldl (fun m t => memSet m (cacheKey t.Locale t.Key) (toStored t))
        (memSet m (cacheKey t.Locale t.Key) (toStored t)) ts) =
        memAddAll (memSet m (cacheKey t.Locale t.Key) (toStored t)) ts from rfl, ih]
    cases lastWrite k ts with
    | some s => rfl
    | none =>
      simp only
      rw [memLookup_memSet]
      by_cases hk : cacheKey t.Locale t.Key = k
      · simp [hk]
      · simp [hk]

theorem memLookup_loadMem (bs : List BackendModel) (m : Mem) (k : String) :
    memLookup (loadMem m bs) k =
      match firstHit k bs with
      | some s => some s
      | none => memLookup m k := by
  induction bs generalizing m with
  | nil => rfl
  | cons b bs ih =>
    simp only [loadMem, List.reverse_cons, List.foldl_append, List.foldl_cons,
      List.foldl_nil, firstHit]
    rw [show (List.foldl (fun m b => memAddAll m b.translations) m bs.reverse) =
        loadMem m bs from rfl, memLookup_memAddAll]
    cases hlw : lastWrite k b.translations with
    | some s => rfl
    | none => exact ih m

theorem AddTranslation_fst (e : I18n σ) (t : Translation) :
    (AddTranslation e t).1 =
      { e with cacheStore := (e.store.set e.cacheStore (cacheKey t.Locale t.Key) (toStored t)).1 } :=
  rfl

theorem addAll_eq_mem (ts : List Translation) (e : I18n Mem) (h : e.store = memStore) :
    addAll e ts = { e with cacheStore := memAddAll e.cacheStore ts } := by
  obtain ⟨sc, dv, Bk, FL, fl, st, cs, p⟩ := e
  replace h : st = memStore := h
  subst h
  induction ts generalizing cs with
  | nil => rfl
  | cons t ts ih => exact ih (memSet cs (cacheKey t.Locale t.Key) (toStored t))

theorem foldAddAll_eq_mem (l : List BackendModel) (e : I18n Mem) (h : e.store = memStore) :
    l.foldl (fun acc b => addAll acc b.translations) e =
      { e with cacheStore := l.foldl (fun m b => memAddAll m b.translations) e.cacheStore } := by
  induction l generalizing e with
  | nil => rfl
  | cons b l ih =>
    simp only [List.foldl_cons]
    rw [ih (addAll e b.translations) (by rw [addAll_eq_mem _ _ h]; exact h),
      addAll_eq_mem _ _ h]

theorem loadToCacheStore_eq_mem (e : I18n Mem) (h : e.store = memStore) :
    loadToCacheStore e = { e with cacheStore := loadMem e.cacheStore e.Backends } := by
  unfold loadToCacheStore loadMem
  exact foldAddAll_eq_mem e.Backends.reverse e h

theorem New_eq (p : String → String → List String → Option String)
    (backends : List BackendModel) :
    New p backends =
      { scope := "", value := "", Backends := backends, FallbackLocales := [],
        fallbackLocales := [], store := memStore, cacheStore := loadMem [] backends,
        parse := p } := by
  unfold New
  rw [loadToCacheStore_eq_mem _ rfl]

/-! ### Characterizing the probe sequence of `T` -/

theorem unmarshalInto_eq (e : I18n σ) (t : Translation) (l key : String) :
    unmarshalInto e t (cacheKey l key) =
      match probeVal e l key with
      | some s => (⟨s.Key, s.Locale, s.Value, t.Backend⟩, true)
      | none => (t, false) :=
  rfl

theorem usableVal_eq_some {o : Option StoredTranslation} {v : String}
    (h : usableVal o = some v) : ∃ s, o = some s ∧ s.Value = v ∧ v ≠ "" := by
  cases o with
  | none => exact absurd h (by simp [usableVal])
  | some s =>
    by_cases hs : s.Value = ""
    · exact absurd h (by simp [usableVal, hs])
    · refine ⟨s, rfl, ?_, ?_⟩
      · simpa [usableVal, hs] using h
      · have hv : s.Value = v := by simpa [usableVal, hs] using h
        rw [← hv]; exact hs

theorem usableVal_eq_none {o : Option StoredTranslation} (h : usableVal o = none) :
    o = none ∨ ∃ s, o = some s ∧ s.Value = "" := by
  cases o with
  | none => exact Or.inl rfl
  | some s =>
    right
    refine ⟨s, rfl, ?_⟩
    by_cases hs : s.Value = ""
    · exact hs
    · exact absurd h (by simp [usableVal, hs])

theorem firstUsable_cons (e : I18n σ) (key l : String) (ls : List String) :
    firstUsable e key (l :: ls) =
      match usableVal (probeVal e l key) with
      | some v => some v
      | none => firstUsable e key ls :=
  rfl

theorem firstUsable_cons_none (e : I18n σ) (key l : String) (ls : List String)
    (h : firstUsable e key (l :: ls) = none) :
    usableVal (probeVal e l key) = none ∧ firstUsable e key ls = none := by
  rw [firstUsable_cons] at h
  cases hu : usableVal (probeVal e l key) with
  | some v => rw [hu] at h; exact absurd h (by simp)
  | none => rw [hu] at h; exact ⟨rfl, h⟩

theorem firstUsable_none_elem (e : I18n σ) (key : String) (ls : List String)
    (h : firstUsable e key ls = none) (l : String) (hl : l ∈ ls) :
    usableVal (probeVal e l key) = none := by
  induction ls with
  | nil => cases hl
  | cons a ls ih =>
    obtain ⟨h1, h2⟩ := firstUsable_cons_none e key a ls h
    rcases List.mem_cons.mp hl with rfl | hl
    · exact h1
    · exact ih h2 hl

theorem firstUsable_some_ne (e : I18n σ) (key : String) (ls : List String) (v : String)
    (h : firstUsable e key ls = some v) : v ≠ "" := by
  induction ls with
  | nil => exact absurd h (by simp [firstUsable])
  | cons l ls ih =>
    rw [firstUsable_cons] at h
    cases hu : usableVal (probeVal e l key) with
    | some w =>
      rw [hu] at h
      injection h with h
      rw [← h]
      exact (usableVal_eq_some hu).choose_spec.2.2
    | none => rw [hu] at h; exact ih h

theorem probeLoop_cons_miss (e : I18n σ) (key l : String) (ls : List String)
    (t : Translation) (hp : probeVal e l key = none) :
    probeLoop e key t (l :: ls) = probeLoop e key t ls := by
  show (if _ then _ else _) = _
  rw [unmarshalInto_eq, hp]
  simp

theorem probeLoop_cons_empty (e : I18n σ) (key l : String) (ls : List String)
    (t : Translation) (s : StoredTranslation) (hp : probeVal e l key = some s)
    (hs : s.Value = "") :
    probeLoop e key t (l :: ls) =
      probeLoop e key ⟨s.Key, s.Locale, s.Value, t.Backend⟩ ls := by
  show (if _ then _ else _) = _
  rw [unmarshalInto_eq, hp]
  simp [hs]

theorem probeLoop_cons_hit (e : I18n σ) (key l : String) (ls : List String)
    (t : Translation) (s : StoredTranslation) (hp : probeVal e l key = some s)
    (hs : s.Value ≠ "") :
    probeLoop e key t (l :: ls) = ⟨s.Key, s.Locale, s.Value, t.Backend⟩ := by
  show (if _ then _ else _) = _
  rw [unmarshalInto_eq, hp]
  simp [hs]

theorem probeLoop_of_firstUsable_some (e : I18n σ) (key v : String) :
    ∀ (ls : List String) (t : Translation), firstUsable e key ls = some v →
      (probeLoop e key t ls).Value = v := by
  intro ls
  induction ls with
  | nil => intro t h; exact absurd h (by simp [firstUsable])
  | cons l ls ih =>
    intro t h
    rw [firstUsable_cons] at h
    cases hp : probeVal e l key with
    | none =>
      rw [hp] at h
      simp only [usableVal] at h
      rw [probeLoop_cons_miss e key l ls t hp]
      exact ih t h
    | some s =>
      rw [hp] at h
      by_cases hs : s.Value = ""
      · rw [show usableVal (some s) = none by simp [usableVal, hs]] at h
        rw [probeLoop_cons_empty e key l ls t s hp hs]
        exact ih _ h
      · rw [show usableVal (some s) = some s.Value by simp [usableVal, hs]] at h
        injection h with h
        rw [probeLoop_cons_hit e key l ls t s hp hs]
        exact h

theorem probeLoop_of_firstUsable_none (e : I18n σ) (key : String) :
    ∀ (ls : List String) (t : Translation), firstUsable e key ls = none →
      t.Value = "" → (probeLoop e key t ls).Value = "" := by
  intro ls
  induction ls with
  | nil => intro t _ ht; exact ht
  | cons l ls ih =>
    intro t h ht
    obtain ⟨h1, h2⟩ := firstUsable_cons_none e key l ls h
    rcases usableVal_eq_none h1 with hp | ⟨s, hp, hs⟩
    · rw [probeLoop_cons_miss e key l ls t hp]
      exact ih t h2 ht
    · rw [probeLoop_cons_empty e key l ls t s hp hs]
      exact ih _ h2 hs

/-! ### Characterizing `resolveTranslation` and `T` on the three
resolution outcomes -/

theorem resolve_not_first (e : I18n σ) (loc key tk : String)
    (h0 : usableVal (probeVal e loc key) = none) :
    ∃ t0 : Translation, t0.Value = "" ∧
      resolveTranslation e loc key tk = resolveMiss e loc key tk t0 := by
  rcases usableVal_eq_none h0 with hp | ⟨s, hp, hs⟩
  · refine ⟨⟨"", "", "", none⟩, rfl, ?_⟩
    show (if _ then _ else _) = _
    rw [unmarshalInto_eq, hp]
    simp
  · refine ⟨⟨s.Key, s.Locale, s.Value, none⟩, hs, ?_⟩
    show (if _ then _ else _) = _
    rw [unmarshalInto_eq, hp]
    simp [hs]

theorem resolveMiss_fallback (e : I18n σ) (loc key tk v : String) (t0 : Translation)
    (hfb : firstUsable e key (probeLocales e loc) = some v) :
    (resolveMiss e loc key tk t0).1.Value = v ∧
      (resolveMiss e loc key tk t0).2 = e := by
  have hvne : v ≠ "" := firstUsable_some_ne e key (probeLocales e loc) v hfb
  have hloop : (probeLoop e key t0 (probeLocales e loc)).Value = v :=
    probeLoop_of_firstUsable_some e key v (probeLocales e loc) t0 hfb
  unfold resolveMiss
  rw [if_pos (by rw [hloop]; exact hvne)]
  exact ⟨hloop, rfl⟩

theorem resolveMiss_synth (e : I18n σ) (loc key tk : String) (t0 : Translation)
    (ht0 : t0.Value = "")
    (hfb : firstUsable e key (probeLocales e loc) = none)
    (hdef : usableVal (probeVal e Default key) = none) :
    resolveMiss e loc key tk t0 =
      (⟨tk, loc, e.value, if e.Backends.length > 0 then some 0 else none⟩,
        (SaveTranslation e
          ⟨tk, loc, e.value, if e.Backends.length > 0 then some 0 else none⟩).1) := by
  have hloop : (probeLoop e key t0 (probeLocales e loc)).Value = "" :=
    probeLoop_of_firstUsable_none e key (probeLocales e loc) t0 hfb ht0
  unfold resolveMiss
  rw [if_neg (by rw [hloop]; simp)]
  rw [unmarshalInto_eq]
  rcases usableVal_eq_none hdef with hq | ⟨s', hq, hs'⟩
  · rw [hq]
    simp
  · rw [hq]
    simp [hs']

theorem resolve_first (e : I18n σ) (loc key tk v : String)
    (h : usableVal (probeVal e loc key) = some v) :
    (resolveTranslation e loc key tk).1.Value = v ∧
      (resolveTranslation e loc key tk).2 = e := by
  obtain ⟨s, hp, hv, hne⟩ := usableVal_eq_some h
  unfold resolveTranslation
  rw [unmarshalInto_eq, hp]
  rw [← hv] at hne ⊢
  simp [hne]

theorem resolve_fallback (e : I18n σ) (loc key tk v : String)
    (h0 : usableVal (probeVal e loc key) = none)
    (hfb : firstUsable e key (probeLocales e loc) = some v) :
    (resolveTranslation e loc key tk).1.Value = v ∧
      (resolveTranslation e loc key tk).2 = e := by
  obtain ⟨t0, _, heq⟩ := resolve_not_first e loc key tk h0
  rw [heq]
  exact resolveMiss_fallback e loc key tk v t0 hfb

theorem resolve_synth (e : I18n σ) (loc key tk : String)
    (h0 : usableVal (probeVal e loc key) = none)
    (hfb : firstUsable e key (probeLocales e loc) = none) :
    resolveTranslation e loc key tk =
      (⟨tk, loc, e.value, if e.Backends.length > 0 then some 0 else none⟩,
        (SaveTranslation e
          ⟨tk, loc, e.value, if e.Backends.length > 0 then some 0 else none⟩).1) := by
  have hdef : usableVal (probeVal e Default key) = none :=
    firstUsable_none_elem e key (probeLocales e loc) hfb Default
      (by simp [probeLocales])
  obtain ⟨t0, ht0, heq⟩ := resolve_not_first e loc key tk h0
  rw [heq]
  exact resolveMiss_synth e loc key tk t0 ht0 hfb hdef

/-- `T` with the lets unfolded. -/
theorem T_eq (e : I18n σ) (locale key : String) (args : List String) :
    T e locale key args =
      (parseApply e (if locale = "" then Default else locale)
        (if (resolveTranslation e (if locale = "" then Default else locale) key
              (scopedKey e key)).1.Value ≠ ""
         then (resolveTranslation e (if locale = "" then Default else locale) key
              (scopedKey e key)).1.Value
         else key) args,
       (resolveTranslation e (if locale = "" then Default else locale) key
          (scopedKey e key)).2) :=
  rfl

theorem T_first (e : I18n σ) (loc key : String) (args : List String) (v : String)
    (hL : loc ≠ "") (h : usableVal (probeVal e loc key) = some v) :
    T e loc key args = (parseApply e loc v args, e) := by
  have hvne : v ≠ "" := (usableVal_eq_some h).choose_spec.2.2
  obtain ⟨h1, h2⟩ := resolve_first e loc key (scopedKey e key) v h
  rw [T_eq, if_neg hL, h1, h2, if_pos hvne]

theorem T_fallbackCase (e : I18n σ) (loc key : String) (args : List String) (v : String)
    (hL : loc ≠ "") (h0 : usableVal (probeVal e loc key) = none)
    (hfb : firstUsable e key (probeLocales e loc) = some v) :
    T e loc key args = (parseApply e loc v args, e) := by
  have hvne : v ≠ "" := firstUsable_some_ne e key (probeLocales e loc) v hfb
  obtain ⟨h1, h2⟩ := resolve_fallback e loc key (scopedKey e key) v h0 hfb
  rw [T_eq, if_neg hL, h1, h2, if_pos hvne]

theorem T_synth (e : I18n σ) (loc key : String) (args : List String)
    (hL : loc ≠ "") (h0 : usableVal (probeVal e loc key) = none)
    (hfb : firstUsable e key (probeLocales e loc) = none) :
    T e loc key args =
      (parseApply e loc (if e.value ≠ "" then e.value else key) args,
        (SaveTranslation e
          ⟨scopedKey e key, loc, e.value,
            if e.Backends.length > 0 then some 0 else none⟩).1) := by
  have h := resolve_synth e loc key (scopedKey e key) h0 hfb
  rw [T_eq, if_neg hL, h]

/-! ### Characterizing `SaveTranslation` and `DeleteTranslation` -/

theorem saveAux_allFail (t : Translation) :
    ∀ l : List BackendModel, (∀ b ∈ l, b.acceptSave t = false) →
      saveTranslationAux t l = (l.map (fun b => (backendSave b t).1), false) := by
  intro l
  induction l with
  | nil => intro _; rfl
  | cons b bs ih =>
    intro h
    have hb : b.acceptSave t = false := h b (List.mem_cons_self b bs)
    show (if (backendSave b t).2 = true then ((backendSave b t).1 :: bs, true)
      else ((backendSave b t).1 :: (saveTranslationAux t bs).1,
        (saveTranslationAux t bs).2)) = _
    rw [show (backendSave b t).2 = false from by simp [backendSave, hb],
      ih (fun b hb' => h b (List.mem_cons_of_mem _ hb'))]
    rfl

theorem saveAux_firstSuccess (t : Translation) (pre : List BackendModel)
    (b : BackendModel) (post : List BackendModel)
    (hpre : ∀ p ∈ pre, p.acceptSave t = false) (hb : b.acceptSave t = true) :
    saveTranslationAux t (pre ++ b :: post) =
      (pre.map (fun p => (backendSave p t).1) ++ (backendSave b t).1 :: post, true) := by
  induction pre with
  | nil =>
    show (if (backendSave b t).2 = true then ((backendSave b t).1 :: post, true)
      else ((backendSave b t).1 :: (saveTranslationAux t post).1,
        (saveTranslationAux t post).2)) = _
    rw [show (backendSave b t).2 = true from by simp [backendSave, hb]]
    rfl
  | cons p pre ih =>
    have hp : p.acceptSave t = false := hpre p (List.mem_cons_self p pre)
    show (if (backendSave p t).2 = true
        then ((backendSave p t).1 :: (pre ++ b :: post), true)
      else ((backendSave p t).1 :: (saveTranslationAux t (pre ++ b :: post)).1,
        (saveTranslationAux t (pre ++ b :: post)).2)) = _
    rw [show (backendSave p t).2 = false from by simp [backendSave, hp],
      ih (fun q hq => hpre q (List.mem_cons_of_mem _ hq))]
    rfl

theorem SaveTranslation_allFail (e : I18n σ) (t : Translation)
    (h : ∀ b ∈ e.Backends, b.acceptSave t = false) :
    SaveTranslation e t =
      ({ e with Backends := e.Backends.map (fun b => (backendSave b t).1) }, false) := by
  unfold SaveTranslation
  rw [saveAux_allFail t e.Backends h]
  rfl

theorem SaveTranslation_success (e : I18n σ) (t : Translation)
    (pre : List BackendModel) (b : BackendModel) (post : List BackendModel)
    (hsplit : e.Backends = pre ++ b :: post)
    (hpre : ∀ p ∈ pre, p.acceptSave t = false) (hb : b.acceptSave t = true) :
    SaveTranslation e t =
      ({ e with
          Backends := pre.map (fun p => (backendSave p t).1) ++ (backendSave b t).1 :: post,
          cacheStore := (e.store.set e.cacheStore (cacheKey t.Locale t.Key) (toStored t)).1 },
        true) := by
  unfold SaveTranslation
  rw [hsplit, saveAux_firstSuccess t pre b post hpre hb]
  rfl

theorem SaveTranslation_eq (e : I18n σ) (t : Translation) :
    SaveTranslation e t =
      (if (saveTranslationAux t e.Backends).2 = true
        then { e with
                Backends := (saveTranslationAux t e.Backends).1,
                cacheStore :=
                  (e.store.set e.cacheStore (cacheKey t.Locale t.Key) (toStored t)).1 }
        else { e with Backends := (saveTranslationAux t e.Backends).1 },
       (saveTranslationAux t e.Backends).2) := by
  show (if (saveTranslationAux t e.Backends).2 = true
      then ((AddTranslation { e with Backends := (saveTranslationAux t e.Backends).1 } t).1, true)
      else ({ e with Backends := (saveTranslationAux t e.Backends).1 }, false)) = _
  by_cases h : (saveTranslationAux t e.Backends).2 = true
  · rw [if_pos h, if_pos h, h]
    rfl
  · rw [if_neg h, if_neg h]
    rw [Bool.not_eq_true] at h
    rw [h]

theorem SaveTranslation_fst_store (e : I18n σ) (t : Translation) :
    (SaveTranslation e t).1.store = e.store := by
  rw [SaveTranslation_eq]
  split <;> rfl

theorem SaveTranslation_fst_scope (e : I18n σ) (t : Translation) :
    (SaveTranslation e t).1.scope = e.scope := by
  rw [SaveTranslation_eq]
  split <;> rfl

theorem SaveTranslation_fst_value (e : I18n σ) (t : Translation) :
    (SaveTranslation e t).1.value = e.value := by
  rw [SaveTranslation_eq]
  split <;> rfl

theorem SaveTranslation_fst_parse (e : I18n σ) (t : Translation) :
    (SaveTranslation e t).1.parse = e.parse := by
  rw [SaveTranslation_eq]
  split <;> rfl

theorem SaveTranslation_fst_FallbackLocales (e : I18n σ) (t : Translation) :
    (SaveTranslation e t).1.FallbackLocales = e.FallbackLocales := by
  rw [SaveTranslation_eq]
  split <;> rfl

theorem SaveTranslation_fst_fallbackLocales (e : I18n σ) (t : Translation) :
    (SaveTranslation e t).1.fallbackLocales = e.fallbackLocales := by
  rw [SaveTranslation_eq]
  split <;> rfl

theorem SaveTranslation_fst_Backends (e : I18n σ) (t : Translation) :
    (SaveTranslation e t).1.Backends = (saveTranslationAux t e.Backends).1 := by
  rw [SaveTranslation_eq]
  split <;> rfl

theorem SaveTranslation_fst_cacheStore (e : I18n σ) (t : Translation) :
    (SaveTranslation e t).1.cacheStore = e.cacheStore ∨
      (SaveTranslation e t).1.cacheStore =
        (e.store.set e.cacheStore (cacheKey t.Locale t.Key) (toStored t)).1 := by
  rw [SaveTranslation_eq]
  split
  · exact Or.inr rfl
  · exact Or.inl rfl

theorem saveAux_cons_fst (t : Translation) (b : BackendModel) (bs : List BackendModel) :
    ∃ rest, (saveTranslationAux t (b :: bs)).1 = (backendSave b t).1 :: rest := by
  show ∃ rest, (if (backendSave b t).2 = true then ((backendSave b t).1 :: bs, true)
    else ((backendSave b t).1 :: (saveTranslationAux t bs).1,
      (saveTranslationAux t bs).2)).1 = _
  by_cases h : (backendSave b t).2 = true
  · exact ⟨bs, by rw [if_pos h]⟩
  · exact ⟨(saveTranslationAux t bs).1, by rw [if_neg h]⟩

theorem backendSave_saveLog (b : BackendModel) (t : Translation) :
    (backendSave b t).1.saveLog = b.saveLog ++ [t] := by
  unfold backendSave
  by_cases h : b.acceptSave t <;> simp [h]

theorem backendSave_acceptSave (b : BackendModel) (t : Translation) :
    (backendSave b t).1.acceptSave = b.acceptSave := by
  unfold backendSave
  by_cases h : b.acceptSave t <;> simp [h]

theorem backendSave_translations_of_accept (b : BackendModel) (t : Translation)
    (h : b.acceptSave t = true) :
    (backendSave b t).1.translations =
      t :: removeTranslation t.Locale t.Key b.translations := by
  unfold backendSave
  simp [h]

theorem transCount_removeTranslation (loc key : String) (ts : List Translation) :
    transCount loc key (removeTranslation loc key ts) = 0 := by
  induction ts with
  | nil => rfl
  | cons r ts ih =>
    unfold removeTranslation
    by_cases h : r.Locale = loc ∧ r.Key = key
    · rw [if_pos h]; exact ih
    · rw [if_neg h]
      unfold transCount
      rw [if_neg h, ih]

theorem transCount_upsert (loc key : String) (ts : List Translation) (t : Translation)
    (h : t.Locale = loc ∧ t.Key = key) :
    transCount loc key (t :: removeTranslation loc key ts) = 1 := by
  unfold transCount
  rw [if_pos h, transCount_removeTranslation]

/-! ### Helper congruence lemmas -/

theorem parseApply_null (e : I18n σ) (h : e.parse = nullFormatter)
    (l v : String) (args : List String) : parseApply e l v args = v := by
  unfold parseApply
  rw [h]
  rfl

theorem probeVal_scope (e : I18n σ) (x l key : String) :
    probeVal { e with scope := x } l key = probeVal e l key :=
  rfl

theorem probeLocales_scope (e : I18n σ) (x L : String) :
    probeLocales { e with scope := x } L = probeLocales e L :=
  rfl

theorem firstUsable_scope (e : I18n σ) (x key : String) (ls : List String) :
    firstUsable { e with scope := x } key ls = firstUsable e key ls := by
  induction ls with
  | nil => rfl
  | cons l ls ih =>
    rw [firstUsable_cons, firstUsable_cons, probeVal_scope, ih]

theorem scopedKey_congr (e e' : I18n σ) (h : e'.scope = e.scope) (key : String) :
    scopedKey e' key = scopedKey e key := by
  unfold scopedKey
  rw [h]

theorem probeLocales_congr (e : I18n σ) {σ' : Type} (e' : I18n σ') (L : String)
    (h1 : e'.fallbackLocales = e.fallbackLocales)
    (h2 : e'.FallbackLocales = e.FallbackLocales) :
    probeLocales e' L = probeLocales e L := by
  unfold probeLocales
  rw [h1, h2]

theorem firstUsable_eq_none_of (e : I18n σ) (key : String) (ls : List String)
    (h : ∀ l ∈ ls, usableVal (probeVal e l key) = none) :
    firstUsable e key ls = none := by
  induction ls with
  | nil => rfl
  | cons l ls ih =>
    rw [firstUsable_cons, h l (List.mem_cons_self l ls)]
    exact ih (fun l hl => h l (List.mem_cons_of_mem _ hl))

theorem usableVal_memSet_none (m : Mem) (k k' : String) (v : StoredTranslation)
    (hv : v.Value = "") (h : usableVal (memLookup m k) = none) :
    usableVal (memLookup (memSet m k' v) k) = none := by
  rw [memLookup_memSet]
  by_cases hk : k' = k
  · rw [if_pos hk]
    simp [usableVal, hv]
  · rw [if_neg hk]
    exact h

/-! ### Claim theorems -/

/-- C1: the full load performed at construction iterates backends from
lowest priority (last declared) to highest (first declared), adding every
reported record to the cache store, so the first-declared backend defining
a (Locale, Key) pair is the one whose record is left in the cache for that
pair (`firstHit` walks backends in declared order and takes the first
contribution), and a cache-seeded lookup through `T` resolves to that
backend's value. -/
theorem load_first_declared_backend_wins (backends : List BackendModel)
    (L K : String) (args : List String) (s : StoredTranslation)
    (hL : L ≠ "") (hfind : firstHit (cacheKey L K) backends = some s)
    (hv : s.Value ≠ "") :
    memStore.unmarshal (New nullFormatter backends).cacheStore (cacheKey L K) = some s
    ∧ (T (New nullFormatter backends) L K args).1 = s.Value := by
  have hcs : (New nullFormatter backends).cacheStore = loadMem [] backends := by
    rw [New_eq]
  have hstore : (New nullFormatter backends).store = memStore := by
    rw [New_eq]
  have hparse : (New nullFormatter backends).parse = nullFormatter := by
    rw [New_eq]
  have h1 : memStore.unmarshal (New nullFormatter backends).cacheStore (cacheKey L K)
      = some s := by
    rw [hcs]
    show memLookup (loadMem [] backends) (cacheKey L K) = some s
    rw [memLookup_loadMem, hfind]
  refine ⟨h1, ?_⟩
  have hu : usableVal (probeVal (New nullFormatter backends) L K) = some s.Value := by
    unfold probeVal
    rw [hstore, h1]
    simp [usableVal, hv]
  rw [T_first (New nullFormatter backends) L K args s.Value hL hu]
  exact parseApply_null _ hparse L s.Value args

/-- C2: `T` probes the cache at the requested locale first; if that probe
misses or holds an empty value it probes each configured fallback locale in
declared order and then the default locale, stopping at the first probe
with a non-empty value, so when the requested locale has nothing but a
fallback locale does, `T` returns the value found at the first usable
fallback probe (and leaves the engine unchanged). -/
theorem T_fallback_probe_order (e : I18n σ) (L K : String) (args : List String)
    (fbs : List String) (v : String)
    (hL : L ≠ "") (hbase : e.fallbackLocales = [])
    (hfl : flLookup e.FallbackLocales L = some fbs)
    (hparse : e.parse = nullFormatter)
    (h0 : usableVal (probeVal e L K) = none)
    (hfb : firstUsable e K (fbs ++ [Default]) = some v) :
    (T e L K args).1 = v ∧ (T e L K args).2 = e := by
  have hpl : probeLocales e L = fbs ++ [Default] := by
    unfold probeLocales
    rw [hbase, hfl]
    simp
  rw [T_fallbackCase e L K args v hL h0 (by rw [hpl]; exact hfb)]
  exact ⟨parseApply_null e hparse L v args, rfl⟩

/-- C4: `SaveTranslation` tries backends strictly in priority order and
stops at the first backend whose save succeeds, then mirrors the record
into the cache store and returns success (backends after the first success
are not touched); if every backend rejects the save it returns an error
and the cache store is left completely unchanged. -/
theorem SaveTranslation_priority_walk (e : I18n σ) (t : Translation) :
    ((∀ b ∈ e.Backends, b.acceptSave t = false) →
      (SaveTranslation e t).2 = false ∧ (SaveTranslation e t).1.cacheStore = e.cacheStore)
    ∧ (∀ pre b post, e.Backends = pre ++ b :: post →
        (∀ p ∈ pre, p.acceptSave t = false) → b.acceptSave t = true →
        (SaveTranslation e t).2 = true
        ∧ (SaveTranslation e t).1.cacheStore =
            (e.store.set e.cacheStore (cacheKey t.Locale t.Key) (toStored t)).1
        ∧ (SaveTranslation e t).1.Backends =
            pre.map (fun p => (backendSave p t).1) ++ (backendSave b t).1 :: post) := by
  constructor
  · intro h
    rw [SaveTranslation_allFail e t h]
    exact ⟨rfl, rfl⟩
  · intro pre b post hsplit hpre hb
    rw [SaveTranslation_success e t pre b post hsplit hpre hb]
    exact ⟨rfl, rfl, rfl⟩

/-- C5: `DeleteTranslation` invokes delete on every backend in the chain
unconditionally (every backend's delete log grows by the record, whatever
the per-backend outcomes), then removes the corresponding entry from the
cache store, and the value it returns is exactly the outcome of the cache
deletion. -/
theorem DeleteTranslation_reports_cache_outcome (e : I18n σ) (t : Translation) :
    (DeleteTranslation e t).2 = (e.store.delete e.cacheStore (cacheKey t.Locale t.Key)).2
    ∧ (DeleteTranslation e t).1.cacheStore =
        (e.store.delete e.cacheStore (cacheKey t.Locale t.Key)).1
    ∧ (DeleteTranslation e t).1.Backends.map BackendModel.deleteLog =
        e.Backends.map (fun b => b.deleteLog ++ [t]) := by
  refine ⟨rfl, rfl, ?_⟩
  show (e.Backends.map (fun b => (backendDelete b t).1)).map BackendModel.deleteLog = _
  rw [List.map_map]
  rfl

/-- C7 counterexample: with an empty key, every probe misses, synthesis
yields an empty value, and `T` returns the raw key — the empty string — so
the claim that `T` returns a non-empty string for every locale, key and
argument list is false. -/
theorem T_empty_key_returns_empty :
    (T (New nullFormatter []) "en-US" "" []).1 = "" :=
  rfl

/-- C7 amended: for every non-empty key, `T` returns a non-empty string —
the resolved record's value when non-empty, the raw key otherwise —
provided the external formatter never maps a non-empty string to an empty
one when it succeeds; `T` never fails outward. -/
theorem T_never_blank_for_nonempty_key (e : I18n σ) (L K : String) (args : List String)
    (hK : K ≠ "")
    (hparse : ∀ l v a r, e.parse l v a = some r → v ≠ "" → r ≠ "") :
    (T e L K args).1 ≠ "" := by
  rw [T_eq]
  have hval : (if (resolveTranslation e (if L = "" then Default else L) K
      (scopedKey e K)).1.Value ≠ ""
      then (resolveTranslation e (if L = "" then Default else L) K
      (scopedKey e K)).1.Value
      else K) ≠ "" := by
    by_cases h : (resolveTranslation e (if L = "" then Default else L) K
        (scopedKey e K)).1.Value = ""
    · rw [if_neg (by simp [h])]
      exact hK
    · rw [if_pos h]
      exact h
  show parseApply e _ _ args ≠ ""
  unfold parseApply
  cases hp : e.parse (if L = "" then Default else L)
      (if (resolveTranslation e (if L = "" then Default else L) K
        (scopedKey e K)).1.Value ≠ ""
       then (resolveTranslation e (if L = "" then Default else L) K
        (scopedKey e K)).1.Value
       else K) args with
  | none => exact hval
  | some r => exact hparse _ _ _ _ hp hval

/-- C8: the composite cache key joins locale and key with `"/"` and no
escaping, so distinct (locale, key) pairs can collide: ("en",
"US/greeting") and ("en/US", "greeting") map to the same cache key, and a
record added under one pair is returned by a probe for the other. -/
theorem cacheKey_not_injective :
    cacheKey "en" "US/greeting" = cacheKey "en/US" "greeting"
    ∧ (("en", "US/greeting") : String × String) ≠ ("en/US", "greeting")
    ∧ probeVal ((AddTranslation (New nullFormatter [])
          ⟨"greeting", "en/US", "hola", none⟩).1) "en" "US/greeting" =
        some ⟨"greeting", "en/US", "hola"⟩ := by
  refine ⟨rfl, by decide, rfl⟩

/-- C10: with an empty backend list, `SaveTranslation` always fails and
leaves the engine (in particular the cache store) completely unchanged, and
a `T` call that reaches synthesis persists nothing anywhere yet still
returns the raw key. -/
theorem empty_backend_save_error_T_returns_key (e : I18n σ) (L K : String)
    (args : List String)
    (hB : e.Backends = []) (hL : L ≠ "") (hval : e.value = "")
    (hparse : e.parse = nullFormatter)
    (h0 : usableVal (probeVal e L K) = none)
    (hfb : firstUsable e K (probeLocales e L) = none) :
    (∀ t, SaveTranslation e t = (e, false)) ∧ T e L K args = (K, e) := by
  have he : { e with Backends := ([] : List BackendModel) } = e := by
    rw [← hB]
  have hsave : ∀ t, SaveTranslation e t = (e, false) := by
    intro t
    rw [SaveTranslation_allFail e t (by rw [hB]; intro b hb; cases hb)]
    rw [hB]
    simp only [List.map_nil]
    rw [he]
  refine ⟨hsave, ?_⟩
  rw [T_synth e L K args hL h0 hfb, hsave]
  rw [hval]
  simp only [ne_eq, not_true_eq_false, if_false]
  rw [parseApply_null e hparse]

/-- C6: every cache probe of `T` uses the raw key together with each
candidate locale whatever the engine's scope — the displayed result is
independent of the scope — and only the record synthesized on a total miss
carries the scoped key `scope ++ "." ++ key` (the raw key when the scope is
empty). -/
theorem T_scope_applied_only_to_synthesized (e : I18n σ) (s L K : String)
    (args : List String) (hL : L ≠ "") :
    (T { e with scope := s } L K args).1 = (T { e with scope := "" } L K args).1
    ∧ (usableVal (probeVal e L K) = none →
        firstUsable e K (probeLocales e L) = none →
        (T { e with scope := s } L K args).2 =
          (SaveTranslation { e with scope := s }
            ⟨(if s = "" then K else s ++ "." ++ K), L, e.value,
              if e.Backends.length > 0 then some 0 else none⟩).1) := by
  have hsk : scopedKey { e with scope := s } K =
      if s = "" then K else s ++ "." ++ K := by
    unfold scopedKey
    by_cases h : s = "" <;> simp [h]
  constructor
  · cases h1 : usableVal (probeVal e L K) with
    | some v =>
      rw [T_first { e with scope := s } L K args v hL
          (by rw [probeVal_scope]; exact h1),
        T_first { e with scope := "" } L K args v hL
          (by rw [probeVal_scope]; exact h1)]
      rfl
    | none =>
      cases h2 : firstUsable e K (probeLocales e L) with
      | some v =>
        rw [T_fallbackCase { e with scope := s } L K args v hL
            (by rw [probeVal_scope]; exact h1)
            (by rw [firstUsable_scope]; exact h2),
          T_fallbackCase { e with scope := "" } L K args v hL
            (by rw [probeVal_scope]; exact h1)
            (by rw [firstUsable_scope]; exact h2)]
        rfl
      | none =>
        rw [T_synth { e with scope := s } L K args hL
            (by rw [probeVal_scope]; exact h1)
            (by rw [firstUsable_scope]; exact h2),
          T_synth { e with scope := "" } L K args hL
            (by rw [probeVal_scope]; exact h1)
            (by rw [firstUsable_scope]; exact h2)]
        rfl
  · intro h1 h2
    rw [T_synth { e with scope := s } L K args hL
        (by rw [probeVal_scope]; exact h1)
        (by rw [firstUsable_scope]; exact h2), hsk]

/-- One synthesizing `T` call on an engine over the in-memory store with at
least one backend and an empty per-instance default text: the first backend
received the save invocation for the placeholder record (whether or not it
accepted), the cache either gained exactly the serialized placeholder entry
or stayed unchanged, every other engine field is preserved, and the
displayed result is the formatted raw key. -/
theorem T_synth_step (e : I18n Mem) (L K : String) (args : List String)
    (b : BackendModel) (bs : List BackendModel)
    (hstore : e.store = memStore) (hB : e.Backends = b :: bs)
    (hval : e.value = "") (hL : L ≠ "")
    (h0 : usableVal (probeVal e L K) = none)
    (hfb : firstUsable e K (probeLocales e L) = none) :
    ∃ rest,
      (T e L K args).2.Backends =
        (backendSave b ⟨scopedKey e K, L, "", some 0⟩).1 :: rest
      ∧ ((T e L K args).2.cacheStore = e.cacheStore ∨
          (T e L K args).2.cacheStore =
            memSet e.cacheStore (cacheKey L (scopedKey e K)) ⟨scopedKey e K, L, ""⟩)
      ∧ (T e L K args).2.store = memStore
      ∧ (T e L K args).2.scope = e.scope
      ∧ (T e L K args).2.value = ""
      ∧ (T e L K args).2.parse = e.parse
      ∧ (T e L K args).2.FallbackLocales = e.FallbackLocales
      ∧ (T e L K args).2.fallbackLocales = e.fallbackLocales
      ∧ (T e L K args).1 = parseApply e L K args := by
  have hlen : (if e.Backends.length > 0 then some 0 else none) = some (0 : Nat) := by
    rw [hB]; simp
  have ht3 : (⟨scopedKey e K, L, e.value,
      if e.Backends.length > 0 then some 0 else none⟩ : Translation) =
      ⟨scopedKey e K, L, "", some 0⟩ := by
    rw [hval, hlen]
  have hifK : (if e.value ≠ "" then e.value else K) = K := by
    rw [hval]; simp
  rw [T_synth e L K args hL h0 hfb, ht3, hifK]
  obtain ⟨rest, hrest⟩ := saveAux_cons_fst (⟨scopedKey e K, L, "", some 0⟩ : Translation) b bs
  refine ⟨rest, ?_, ?_, ?_, ?_, ?_, ?_, ?_, ?_, rfl⟩
  · show (SaveTranslation e _).1.Backends = _
    rw [SaveTranslation_fst_Backends, hB, hrest]
  · show (SaveTranslation e _).1.cacheStore = _ ∨ (SaveTranslation e _).1.cacheStore = _
    rcases SaveTranslation_fst_cacheStore e ⟨scopedKey e K, L, "", some 0⟩ with h | h
    · exact Or.inl h
    · right
      rw [h, hstore]
      rfl
  · show (SaveTranslation e _).1.store = _
    rw [SaveTranslation_fst_store, hstore]
  · exact SaveTranslation_fst_scope e _
  · show (SaveTranslation e _).1.value = _
    rw [SaveTranslation_fst_value, hval]
  · exact SaveTranslation_fst_parse e _
  · exact SaveTranslation_fst_FallbackLocales e _
  · exact SaveTranslation_fst_fallbackLocales e _

/-- After one synthesizing `T` call (which can only add an empty-valued
cache entry), the same (locale, key) request still misses every probe. -/
theorem T_synth_step_preserves_miss (e : I18n Mem) (L K : String) (args : List String)
    (b : BackendModel) (bs : List BackendModel)
    (hstore : e.store = memStore) (hB : e.Backends = b :: bs)
    (hval : e.value = "") (hL : L ≠ "")
    (h0 : usableVal (probeVal e L K) = none)
    (hfb : firstUsable e K (probeLocales e L) = none) :
    usableVal (probeVal (T e L K args).2 L K) = none
    ∧ firstUsable (T e L K args).2 K (probeLocales (T e L K args).2 L) = none := by
  obtain ⟨rest, hBk, hcs, hst, hsc, hv1, hp, hFL, hfl, _⟩ :=
    T_synth_step e L K args b bs hstore hB hval hL h0 hfb
  have hpoint : ∀ l, usableVal (probeVal e l K) = none →
      usableVal (probeVal (T e L K args).2 l K) = none := by
    intro l h
    unfold probeVal at h ⊢
    rw [hst]
    rw [hstore] at h
    rcases hcs with hc | hc
    · rw [hc]
      exact h
    · rw [hc]
      exact usableVal_memSet_none e.cacheStore (cacheKey l K)
        (cacheKey L (scopedKey e K)) ⟨scopedKey e K, L, ""⟩ rfl h
  refine ⟨hpoint L h0, ?_⟩
  rw [probeLocales_congr e (T e L K args).2 L hfl hFL]
  exact firstUsable_eq_none_of _ K _ (fun l hl =>
    hpoint l (firstUsable_none_elem e K (probeLocales e L) hfb l hl))

/-- C9: synthesis and the backend save path run on every `T` call for
which no probe yields a non-empty value, not only on the first miss: as
long as the placeholder stays empty-valued, each call synthesizes the
placeholder again and invokes the backend chain's save again, so the first
backend's save log grows by the placeholder record on both the first and
the second call. -/
theorem T_resaves_while_value_empty (e : I18n Mem) (L K : String)
    (args args2 : List String) (b : BackendModel) (bs : List BackendModel)
    (hstore : e.store = memStore) (hB : e.Backends = b :: bs)
    (hL : L ≠ "") (hval : e.value = "")
    (h0 : usableVal (probeVal e L K) = none)
    (hfb : firstUsable e K (probeLocales e L) = none) :
    ∃ b1 bs1 b2 bs2,
      (T e L K args).2.Backends = b1 :: bs1
      ∧ b1.saveLog = b.saveLog ++ [⟨scopedKey e K, L, "", some 0⟩]
      ∧ (T (T e L K args).2 L K args2).2.Backends = b2 :: bs2
      ∧ b2.saveLog = b.saveLog ++
          [⟨scopedKey e K, L, "", some 0⟩, ⟨scopedKey e K, L, "", some 0⟩] := by
  obtain ⟨rest, hBk, hcs, hst, hsc, hv1, hp, hFL, hfl, _⟩ :=
    T_synth_step e L K args b bs hstore hB hval hL h0 hfb
  obtain ⟨h0', hfb'⟩ :=
    T_synth_step_preserves_miss e L K args b bs hstore hB hval hL h0 hfb
  have hsk1 : scopedKey (T e L K args).2 K = scopedKey e K :=
    scopedKey_congr e (T e L K args).2 hsc K
  obtain ⟨rest2, hBk2, _, _, _, _, _, _, _, _⟩ :=
    T_synth_step (T e L K args).2 L K args2
      ((backendSave b ⟨scopedKey e K, L, "", some 0⟩).1) rest hst hBk hv1 hL h0' hfb'
  rw [hsk1] at hBk2
  refine ⟨(backendSave b ⟨scopedKey e K, L, "", some 0⟩).1, rest,
    (backendSave (backendSave b ⟨scopedKey e K, L, "", some 0⟩).1
      ⟨scopedKey e K, L, "", some 0⟩).1, rest2, hBk, ?_, hBk2, ?_⟩
  · rw [backendSave_saveLog]
  · rw [backendSave_saveLog, backendSave_saveLog, List.append_assoc]
    rfl

/-- C3: when no probe yields a non-empty value, `T` returns exactly the
raw key, and as a side effect the placeholder record (empty value, the
requested locale, owner the first backend) has been persisted through the
save path into the (accepting) first backend and mirrored into the cache;
a second call with the same locale and key again returns the key and
leaves exactly one visible cache entry and exactly one matching backend
record — no duplicates. -/
theorem T_total_miss_synthesizes_persists (e : I18n Mem) (L K : String)
    (args args2 : List String) (b : BackendModel) (bs : List BackendModel)
    (hstore : e.store = memStore) (hB : e.Backends = b :: bs)
    (hacc : b.acceptSave ⟨scopedKey e K, L, "", some 0⟩ = true)
    (hval : e.value = "") (hparse : e.parse = nullFormatter) (hL : L ≠ "")
    (h0 : usableVal (probeVal e L K) = none)
    (hfb : firstUsable e K (probeLocales e L) = none) :
    (T e L K args).1 = K
    ∧ probeVal (T e L K args).2 L (scopedKey e K) = some ⟨scopedKey e K, L, ""⟩
    ∧ (∃ b1 bs1, (T e L K args).2.Backends = b1 :: bs1
        ∧ (⟨scopedKey e K, L, "", some 0⟩ : Translation) ∈ b1.translations)
    ∧ (T (T e L K args).2 L K args2).1 = K
    ∧ memCount (T (T e L K args).2 L K args2).2.cacheStore
        (cacheKey L (scopedKey e K)) = 1
    ∧ (∃ b2 bs2, (T (T e L K args).2 L K args2).2.Backends = b2 :: bs2
        ∧ transCount L (scopedKey e K) b2.translations = 1) := by
  have hlen : (if e.Backends.length > 0 then some 0 else none) = some (0 : Nat) := by
    rw [hB]; simp
  have ht3 : (⟨scopedKey e K, L, e.value,
      if e.Backends.length > 0 then some 0 else none⟩ : Translation) =
      ⟨scopedKey e K, L, "", some 0⟩ := by
    rw [hval, hlen]
  have hifK : (if e.value ≠ "" then e.value else K) = K := by
    rw [hval]; simp
  have hT1 : T e L K args =
      (parseApply e L K args,
        (SaveTranslation e ⟨scopedKey e K, L, "", some 0⟩).1) := by
    rw [T_synth e L K args hL h0 hfb, ht3, hifK]
  have hS1 := SaveTranslation_success e ⟨scopedKey e K, L, "", some 0⟩ [] b bs
    (by rw [hB]; rfl) (fun p hp => absurd hp (List.not_mem_nil p)) hacc
  -- facts about the engine after the first call
  have hBk1 : (T e L K args).2.Backends =
      (backendSave b ⟨scopedKey e K, L, "", some 0⟩).1 :: bs := by
    rw [hT1]
    show (SaveTranslation e ⟨scopedKey e K, L, "", some 0⟩).1.Backends = _
    rw [hS1]
    simp
  have hcs1 : (T e L K args).2.cacheStore =
      memSet e.cacheStore (cacheKey L (scopedKey e K)) ⟨scopedKey e K, L, ""⟩ := by
    rw [hT1]
    show (SaveTranslation e ⟨scopedKey e K, L, "", some 0⟩).1.cacheStore = _
    rw [hS1]
    show (e.store.set e.cacheStore _ _).1 = _
    rw [hstore]
    rfl
  have hr1 : (T e L K args).1 = K := by
    rw [hT1]
    exact parseApply_null e hparse L K args
  have hsc1 : (T e L K args).2.scope = e.scope := by
    rw [hT1]; exact SaveTranslation_fst_scope e _
  have hsk1 : scopedKey (T e L K args).2 K = scopedKey e K :=
    scopedKey_congr e (T e L K args).2 hsc1 K
  have hv1 : (T e L K args).2.value = "" := by
    rw [hT1]
    show (SaveTranslation e ⟨scopedKey e K, L, "", some 0⟩).1.value = _
    rw [SaveTranslation_fst_value]
    exact hval
  have hp1 : (T e L K args).2.parse = nullFormatter := by
    rw [hT1]
    show (SaveTranslation e ⟨scopedKey e K, L, "", some 0⟩).1.parse = _
    rw [SaveTranslation_fst_parse]
    exact hparse
  have hst1 : (T e L K args).2.store = memStore := by
    rw [hT1]
    show (SaveTranslation e ⟨scopedKey e K, L, "", some 0⟩).1.store = _
    rw [SaveTranslation_fst_store]
    exact hstore
  have hmirror : probeVal (T e L K args).2 L (scopedKey e K) =
      some ⟨scopedKey e K, L, ""⟩ := by
    unfold probeVal
    rw [hst1, hcs1]
    show memLookup (memSet e.cacheStore (cacheKey L (scopedKey e K))
      ⟨scopedKey e K, L, ""⟩) (cacheKey L (scopedKey e K)) = _
    rw [memLookup_memSet, if_pos rfl]
  obtain ⟨h0', hfb'⟩ :=
    T_synth_step_preserves_miss e L K args b bs hstore hB hval hL h0 hfb
  have hacc1 : (backendSave b ⟨scopedKey e K, L, "", some 0⟩).1.acceptSave
      ⟨scopedKey e K, L, "", some 0⟩ = true := by
    rw [backendSave_acceptSave]
    exact hacc
  have hlen2 : (if (T e L K args).2.Backends.length > 0 then some 0 else none) =
      some (0 : Nat) := by
    rw [hBk1]; simp
  have ht3' : (⟨scopedKey (T e L K args).2 K, L, (T e L K args).2.value,
      if (T e L K args).2.Backends.length > 0 then some 0 else none⟩ : Translation) =
      ⟨scopedKey e K, L, "", some 0⟩ := by
    rw [hsk1, hv1, hlen2]
  have hifK2 : (if (T e L K args).2.value ≠ "" then (T e L K args).2.value else K) = K := by
    rw [hv1]; simp
  have hT2 : T (T e L K args).2 L K args2 =
      (parseApply (T e L K args).2 L K args2,
        (SaveTranslation (T e L K args).2 ⟨scopedKey e K, L, "", some 0⟩).1) := by
    rw [T_synth (T e L K args).2 L K args2 hL h0' hfb', ht3', hifK2]
  have hS2 := SaveTranslation_success (T e L K args).2 ⟨scopedKey e K, L, "", some 0⟩ []
    (backendSave b ⟨scopedKey e K, L, "", some 0⟩).1 bs
    (by rw [hBk1]; rfl) (fun p hp => absurd hp (List.not_mem_nil p)) hacc1
  have hBk2 : (SaveTranslation (T e L K args).2
      ⟨scopedKey e K, L, "", some 0⟩).1.Backends =
      (backendSave (backendSave b ⟨scopedKey e K, L, "", some 0⟩).1
        ⟨scopedKey e K, L, "", some 0⟩).1 :: bs := by
    rw [hS2]
    simp
  have hcs2 : (SaveTranslation (T e L K args).2
      ⟨scopedKey e K, L, "", some 0⟩).1.cacheStore =
      memSet (T e L K args).2.cacheStore (cacheKey L (scopedKey e K))
        ⟨scopedKey e K, L, ""⟩ := by
    rw [hS2]
    show ((T e L K args).2.store.set (T e L K args).2.cacheStore _ _).1 = _
    rw [hst1]
    rfl
  refine ⟨hr1, hmirror,
    ⟨(backendSave b ⟨scopedKey e K, L, "", some 0⟩).1, bs, hBk1, ?_⟩, ?_, ?_, ?_⟩
  · rw [backendSave_translations_of_accept b _ hacc]
    exact List.mem_cons_self _ _
  · rw [hT2]
    exact parseApply_null (T e L K args).2 hp1 L K args2
  · rw [hT2]
    show memCount (SaveTranslation (T e L K args).2
      ⟨scopedKey e K, L, "", some 0⟩).1.cacheStore (cacheKey L (scopedKey e K)) = 1
    rw [hcs2]
    exact memCount_memSet_self _ _ _
  · refine ⟨(backendSave (backendSave b ⟨scopedKey e K, L, "", some 0⟩).1
      ⟨scopedKey e K, L, "", some 0⟩).1, bs, ?_, ?_⟩
    · rw [hT2]
      exact hBk2
    · rw [backendSave_translations_of_accept _ _ hacc1]
      exact transCount_upsert L (scopedKey e K) _ _ ⟨rfl, rfl⟩

/-! ### Witnesses -/

/-- Witness for C1: two backends both defining ("L", "K"); the load leaves
the first-declared backend's record, and `T` resolves to "v1". -/
theorem load_first_declared_backend_wins_witness :
    memStore.unmarshal (New nullFormatter [wBackendV1, wBackendV2]).cacheStore
      (cacheKey "L" "K") = some ⟨"K", "L", "v1"⟩
    ∧ (T (New nullFormatter [wBackendV1, wBackendV2]) "L" "K" []).1 = "v1" :=
  load_first_declared_backend_wins [wBackendV1, wBackendV2] "L" "K" []
    ⟨"K", "L", "v1"⟩ (by decide) rfl (by decide)

/-- Witness for C2: "L" has no value for "K" but fallback locale "L3"
does; `T` returns "bonjour", not the default locale's "dflt". -/
theorem T_fallback_probe_order_witness :
    (T wFallbackEngine "L" "K" []).1 = "bonjour"
    ∧ (T wFallbackEngine "L" "K" []).2 = wFallbackEngine :=
  T_fallback_probe_order wFallbackEngine "L" "K" [] ["L2", "L3"] "bonjour"
    (by decide) rfl rfl rfl rfl rfl

/-- Witness for C3: a total miss on a fresh engine with one accepting
backend returns the raw key, persists and mirrors the placeholder, and a
second call leaves no duplicates. -/
theorem T_total_miss_synthesizes_persists_witness :
    (T wOneBackendEngine "L" "miss" []).1 = "miss"
    ∧ probeVal (T wOneBackendEngine "L" "miss" []).2 "L" "miss" =
        some ⟨"miss", "L", ""⟩
    ∧ (∃ b1 bs1, (T wOneBackendEngine "L" "miss" []).2.Backends = b1 :: bs1
        ∧ (⟨"miss", "L", "", some 0⟩ : Translation) ∈ b1.translations)
    ∧ (T (T wOneBackendEngine "L" "miss" []).2 "L" "miss" []).1 = "miss"
    ∧ memCount (T (T wOneBackendEngine "L" "miss" []).2 "L" "miss" []).2.cacheStore
        (cacheKey "L" "miss") = 1
    ∧ (∃ b2 bs2,
        (T (T wOneBackendEngine "L" "miss" []).2 "L" "miss" []).2.Backends = b2 :: bs2
        ∧ transCount "L" "miss" b2.translations = 1) :=
  T_total_miss_synthesizes_persists wOneBackendEngine "L" "miss" [] []
    (okBackend []) [] rfl rfl rfl rfl rfl (by decide) rfl rfl

/-- Witness for C4: a save against a single rejecting backend fails and
leaves the cache untouched; against a reject-accept-accept chain it stops
at the second backend and mirrors into the cache. -/
theorem SaveTranslation_priority_walk_witness :
    ((SaveTranslation wRejectEngine ⟨"k", "l", "v", none⟩).2 = false
      ∧ (SaveTranslation wRejectEngine ⟨"k", "l", "v", none⟩).1.cacheStore =
          wRejectEngine.cacheStore)
    ∧ ((SaveTranslation wMixedEngine ⟨"k", "l", "v", none⟩).2 = true
      ∧ (SaveTranslation wMixedEngine ⟨"k", "l", "v", none⟩).1.cacheStore =
          (wMixedEngine.store.set wMixedEngine.cacheStore (cacheKey "l" "k")
            (toStored ⟨"k", "l", "v", none⟩)).1
      ∧ (SaveTranslation wMixedEngine ⟨"k", "l", "v", none⟩).1.Backends =
          [noBackend []].map (fun p => (backendSave p ⟨"k", "l", "v", none⟩).1)
            ++ (backendSave (okBackend []) ⟨"k", "l", "v", none⟩).1 :: [okBackend []]) :=
  ⟨(SaveTranslation_priority_walk wRejectEngine ⟨"k", "l", "v", none⟩).1
      (by
        intro p hp
        have hb : wRejectEngine.Backends = [noBackend []] := rfl
        rw [hb, List.mem_singleton] at hp
        subst hp
        rfl),
    (SaveTranslation_priority_walk wMixedEngine ⟨"k", "l", "v", none⟩).2
      [noBackend []] (okBackend []) [okBackend []] rfl
      (by
        intro p hp
        rw [List.mem_singleton] at hp
        subst hp
        rfl)
      rfl⟩

/-- Witness for C6: with scope "admin", the displayed result equals the
unscoped one, and the record synthesized on a total miss carries the key
"admin.key". -/
theorem T_scope_applied_only_to_synthesized_witness :
    (T { wEmptyEngine with scope := "admin" } "L" "key" []).1 =
      (T { wEmptyEngine with scope := "" } "L" "key" []).1
    ∧ (T { wEmptyEngine with scope := "admin" } "L" "key" []).2 =
        (SaveTranslation { wEmptyEngine with scope := "admin" }
          ⟨(if ("admin" : String) = "" then "key" else "admin" ++ "." ++ "key"), "L",
            wEmptyEngine.value,
            if wEmptyEngine.Backends.length > 0 then some 0 else none⟩).1 :=
  ⟨(T_scope_applied_only_to_synthesized wEmptyEngine "admin" "L" "key" []
      (by decide)).1,
    (T_scope_applied_only_to_synthesized wEmptyEngine "admin" "L" "key" []
      (by decide)).2 rfl rfl⟩

/-- Witness for C7 (amended): on a fresh engine, a lookup of the non-empty
key "x" returns a non-empty string. -/
theorem T_never_blank_for_nonempty_key_witness :
    (T wEmptyEngine "en-US" "x" []).1 ≠ "" :=
  T_never_blank_for_nonempty_key wEmptyEngine "en-US" "x" [] (by decide)
    (fun _ _ _ _ h _ => Option.noConfusion h)

/-- Witness for C9: on a fresh engine with one rejecting backend, two `T`
calls for the same missing key each append the placeholder to the
backend's save log. -/
theorem T_resaves_while_value_empty_witness :
    ∃ b1 bs1 b2 bs2,
      (T wRejectEngine "L" "miss" []).2.Backends = b1 :: bs1
      ∧ b1.saveLog = [(⟨"miss", "L", "", some 0⟩ : Translation)]
      ∧ (T (T wRejectEngine "L" "miss" []).2 "L" "miss" []).2.Backends = b2 :: bs2
      ∧ b2.saveLog =
          [(⟨"miss", "L", "", some 0⟩ : Translation), ⟨"miss", "L", "", some 0⟩] :=
  T_resaves_while_value_empty wRejectEngine "L" "miss" [] [] (noBackend []) []
    rfl rfl (by decide) rfl rfl rfl

/-- Witness for C10: with no backends, a save returns an error and changes
nothing, and a totally-missing lookup returns the raw key with the engine
unchanged. -/
theorem empty_backend_save_error_T_returns_key_witness :
    SaveTranslation wEmptyEngine ⟨"k", "l", "v", none⟩ = (wEmptyEngine, false)
    ∧ T wEmptyEngine "L" "K" [] = ("K", wEmptyEngine) :=
  ⟨(empty_backend_save_error_T_returns_key wEmptyEngine "L" "K" []
      rfl (by decide) rfl rfl rfl rfl).1 ⟨"k", "l", "v", none⟩,
    (empty_backend_save_error_T_returns_key wEmptyEngine "L" "K" []
      rfl (by decide) rfl rfl rfl rfl).2⟩

end QorI18n
